import Mathlib

/-!
Verification development for the AIFS client repository.

Part 1 embeds the client-side TypeScript that is present in the repository:
the Next.js API bridge routes (`src/frontend/src/app/api/v1/conversations/chat/route.ts`
and the assets upload route), the asset grid/list views with their local mock
data (`AssetGrid`/`AssetList`), and the upload modal's dropzone configuration
(`UploadModal`).

Part 2 models the AIFS server storage core (content store, vector index,
Merkle engine, asset manager).  That core is an external dependency of this
repository: only its API declarations appear in the reviewed sources, so the
definitions in Part 2 are modelled from the specification's contracts.
-/

namespace AifsClient

/-- A JSON value as produced by `JSON.parse` / consumed by `JSON.stringify`
in the route handlers.  Numbers are modelled as rationals. -/
inductive JValue where
  | null
  | bool (b : Bool)
  | num (q : ℚ)
  | str (s : String)
  | arr (elems : List JValue)
  | obj (fields : List (String × JValue))

/-- JavaScript truthiness of a defined value: `null`, `false`, `0` and the
empty string are falsy; arrays and objects are always truthy. -/
def jsTruthy : JValue → Bool
  | .null => false
  | .bool b => b
  | .num q => decide (q ≠ 0)
  | .str s => decide (s ≠ "")
  | .arr _ => true
  | .obj _ => true

/-- A possibly-`undefined` JavaScript value: `none` models `undefined`
(an absent object property). -/
def jsTruthyOpt : Option JValue → Bool
  | none => false
  | some v => jsTruthy v

/-- The JavaScript `a || b` operator on possibly-`undefined` values:
yields `a` when `a` is truthy and `b` otherwise. -/
def jsOr (a b : Option JValue) : Option JValue :=
  if jsTruthyOpt a then a else b

/-- The parsed request body of the chat route: `body.message` and
`body.context_assets` are property reads that may yield `undefined`. -/
structure ChatBody where
  message : Option JValue
  context_assets : Option JValue

/-- The message object the chat route forwards to the backend. -/
structure ChatMessage where
  role : String
  content : Option JValue
  context_assets : Option JValue

/-- `route.ts` lines 10–14: the transformation of the request body into the
backend message format (`role: 'user'`, `content: body.message`,
`context_assets: body.context_assets || null`). -/
def chatMessageData (body : ChatBody) : ChatMessage :=
  { role := "user"
    content := body.message
    context_assets := jsOr body.context_assets (some .null) }

/-- The claim's reading of the forwarded `context_assets` field: the body's
value when truthy, JSON `null` otherwise (also when the field is omitted). -/
def contextAssetsSpec (body : ChatBody) : JValue :=
  match body.context_assets with
  | some w => if jsTruthy w then w else .null
  | none => .null

/-- Outcome of the `fetch` call a route makes to the backend. -/
inductive FetchOutcome where
  | success (status : Nat) (data : JValue)
  | networkError

/-- An HTTP response produced by a route handler: status code and JSON body. -/
structure ApiResponse where
  status : Nat
  body : JValue

/-- The catch-all error body of the chat route (`route.ts` lines 32–35). -/
def chatErrorBody : JValue := .obj [("error", .str "Failed to process chat message")]

/-- The catch-all error body of the upload route. -/
def uploadErrorBody : JValue := .obj [("error", .str "Failed to upload file")]

/-- The chat route `POST` handler.  `body = none` models `request.json()`
throwing; a non-2xx backend status makes `response.ok` false, which the
handler turns into a thrown error; every thrown error lands in the single
`catch` that returns the generic body with status 500. -/
def chatPOST (body : Option ChatBody) (backend : FetchOutcome) : ApiResponse :=
  match body with
  | none => ⟨500, chatErrorBody⟩
  | some _ =>
    match backend with
    | .networkError => ⟨500, chatErrorBody⟩
    | .success st data =>
        if 200 ≤ st ∧ st < 300 then ⟨200, data⟩ else ⟨500, chatErrorBody⟩

/-- The upload route `POST` handler; `formDataOk = false` models
`request.formData()` throwing.  Same single-catch shape as the chat route. -/
def uploadPOST (formDataOk : Bool) (backend : FetchOutcome) : ApiResponse :=
  if formDataOk then
    match backend with
    | .networkError => ⟨500, uploadErrorBody⟩
    | .success st data =>
        if 200 ≤ st ∧ st < 300 then ⟨200, data⟩ else ⟨500, uploadErrorBody⟩
  else ⟨500, uploadErrorBody⟩

/-- `b` occurs as a contiguous substring of `s` (character lists) — the
semantics of JavaScript's `String.prototype.includes`. -/
def charsContain (sub : List Char) : List Char → Bool
  | [] => sub.isEmpty
  | c :: t => sub.isPrefixOf (c :: t) || charsContain sub t

/-- JavaScript `s.includes(sub)`. -/
def strIncludes (s sub : String) : Bool := charsContain sub.toList s.toList

/-- JavaScript `s.toLowerCase()`: simple per-character lowercasing. -/
def strToLower (s : String) : String := ⟨s.data.map Char.toLower⟩

/-- The asset record shape shared by `AssetGrid` and `AssetList`. -/
structure Asset where
  id : String
  name : String
  type : String
  mimeType : String
  size : Nat
  createdAt : String
  tags : List String
deriving DecidableEq

namespace AssetGrid

/-- The hardcoded mock asset list of `FilterPanel.tsx` (the `AssetGrid`
component), lines 98–153. -/
def mockAssets : List Asset :=
  [ ⟨"1", "ML_Guide.pdf", "file", "application/pdf", 2100000,
      "2024-01-15T10:30:00Z", ["ml", "guide", "documentation"]⟩
  , ⟨"2", "training_data.csv", "file", "text/csv", 15300000,
      "2024-01-14T15:20:00Z", ["data", "training", "csv"]⟩
  , ⟨"3", "project_notes.md", "file", "text/markdown", 800000,
      "2024-01-13T09:15:00Z", ["notes", "project", "markdown"]⟩
  , ⟨"4", "ML Models", "folder", "folder", 0,
      "2024-01-12T14:45:00Z", ["ml", "models", "folder"]⟩
  , ⟨"5", "chart.png", "file", "image/png", 1500000,
      "2024-01-11T16:30:00Z", ["image", "chart", "visualization"]⟩
  , ⟨"6", "presentation.mp4", "file", "video/mp4", 45000000,
      "2024-01-10T11:20:00Z", ["video", "presentation", "demo"]⟩ ]

/-- `AssetGrid`'s `filteredAssets` (`FilterPanel.tsx` lines 199–202):
keep an asset when its lowercased name contains the lowercased query or
some tag's lowercased form contains the lowercased query. -/
def filteredAssets (searchQuery : String) : List Asset :=
  mockAssets.filter fun asset =>
    strIncludes (strToLower asset.name) (strToLower searchQuery) ||
    asset.tags.any fun tag => strIncludes (strToLower tag) (strToLower searchQuery)

end AssetGrid

namespace AssetList

/-- The hardcoded mock asset list of `AssetList.tsx`, lines 25–80
(a second copy of the same six records). -/
def mockAssets : List Asset :=
  [ ⟨"1", "ML_Guide.pdf", "file", "application/pdf", 2100000,
      "2024-01-15T10:30:00Z", ["ml", "guide", "documentation"]⟩
  , ⟨"2", "training_data.csv", "file", "text/csv", 15300000,
      "2024-01-14T15:20:00Z", ["data", "training", "csv"]⟩
  , ⟨"3", "project_notes.md", "file", "text/markdown", 800000,
      "2024-01-13T09:15:00Z", ["notes", "project", "markdown"]⟩
  , ⟨"4", "ML Models", "folder", "folder", 0,
      "2024-01-12T14:45:00Z", ["ml", "models", "folder"]⟩
  , ⟨"5", "chart.png", "file", "image/png", 1500000,
      "2024-01-11T16:30:00Z", ["image", "chart", "visualization"]⟩
  , ⟨"6", "presentation.mp4", "file", "video/mp4", 45000000,
      "2024-01-10T11:20:00Z", ["video", "presentation", "demo"]⟩ ]

/-- `AssetList`'s `filteredAssets` (`AssetList.tsx` lines 126–129),
the same filter as `AssetGrid`'s over its own copy of the mock list. -/
def filteredAssets (searchQuery : String) : List Asset :=
  mockAssets.filter fun asset =>
    strIncludes (strToLower asset.name) (strToLower searchQuery) ||
    asset.tags.any fun tag => strIncludes (strToLower tag) (strToLower searchQuery)

end AssetList

/-- The claim's display predicate for the asset views: the lowercased name
contains the lowercased query, or at least one tag's lowercased form does. -/
def displaySpec (q : String) (a : Asset) : Bool :=
  strIncludes (strToLower a.name) (strToLower q) ||
  a.tags.any fun tag => strIncludes (strToLower tag) (strToLower q)

/-- A file offered to the upload modal's dropzone. -/
structure DroppedFile where
  name : String
  mime : String
  size : Nat
deriving DecidableEq

/-- The keys of the `accept` map passed to `useDropzone` in `UploadModal`. -/
def uploadAcceptTypes : List String :=
  [ "application/pdf", "text/plain", "text/csv", "application/msword"
  , "application/vnd.openxmlformats-officedocument.wordprocessingml.document"
  , "image/jpeg", "image/png", "image/gif", "video/mp4", "audio/mpeg"
  , "application/json", "text/markdown", "text/x-python" ]

/-- The `maxSize` option passed to `useDropzone` in `UploadModal`. -/
def uploadMaxSize : Nat := 100 * 1024 * 1024

/-- The dropzone's acceptance decision induced by the `UploadModal`
configuration: the file's MIME type must be an `accept` key and its size
must not exceed `maxSize`. -/
def dropzoneAccepts (f : DroppedFile) : Bool :=
  decide (f.mime ∈ uploadAcceptTypes) && decide (f.size ≤ uploadMaxSize)

/-- The `acceptedFiles` argument `useDropzone` passes to `onDrop`:
exactly the dropped files the dropzone accepts. -/
def dropzoneAcceptedFiles (fs : List DroppedFile) : List DroppedFile :=
  fs.filter dropzoneAccepts

/-- `onDrop` (`UploadModal` lines 18–58) issues one POST to
`/api/v1/assets/upload` per accepted file, in order. -/
def uploadRequestsFor (fs : List DroppedFile) : List String :=
  (dropzoneAcceptedFiles fs).map fun f => f.name

/-- The MIME whitelist as enumerated by the claim: PDF, plain text, CSV,
DOC/DOCX, JPEG, PNG, GIF, MP4, MP3, JSON, Markdown, Python. -/
def claimWhitelist : List String :=
  [ "application/pdf", "text/plain", "text/csv", "application/msword"
  , "application/vnd.openxmlformats-officedocument.wordprocessingml.document"
  , "image/jpeg", "image/png", "image/gif", "video/mp4", "audio/mpeg"
  , "application/json", "text/markdown", "text/x-python" ]

end AifsClient

namespace AifsCore

/-- Modelled from the spec: one level of the Merkle build (§4.4) — hash
sibling pairs iteratively, duplicating the last node when the level has odd
cardinality.  `f` is the node-combining hash.  The AIFS server implementing
this is not part of the reviewed repository. -/
def foldPairs {α : Type} (f : α → α → α) : List α → List α
  | [] => []
  | [x] => [f x x]
  | x :: y :: rest => f x y :: foldPairs f rest

theorem foldPairs_length {α : Type} (f : α → α → α) :
    ∀ l : List α, (foldPairs f l).length = (l.length + 1) / 2
  | [] => by simp [foldPairs]
  | [_] => by simp [foldPairs]
  | _ :: _ :: rest => by
      simp [foldPairs, foldPairs_length f rest]
      omega

/-- Modelled from the spec: the Merkle root of a level — fold levels until a
single node remains; `none` on the empty id set. -/
def buildRoot {α : Type} (f : α → α → α) : List α → Option α
  | [] => none
  | [x] => some x
  | x :: y :: rest => buildRoot f (foldPairs f (x :: y :: rest))
termination_by l => l.length
decreasing_by simp [foldPairs_length]; omega

/-- Modelled from the spec: the inclusion proof for the leaf at index `i` —
at each level record the sibling hash together with its side (`true` =
sibling sits to the right), then ascend to index `i / 2`. -/
def genProof {α : Type} (f : α → α → α) : List α → Nat → List (Bool × α)
  | [], _ => []
  | [_], _ => []
  | x :: y :: rest, i =>
      (if i % 2 = 0 then
        (true, if i + 1 < (x :: y :: rest).length then (x :: y :: rest).getD (i + 1) x
               else (x :: y :: rest).getD i x)
       else (false, (x :: y :: rest).getD (i - 1) x))
      :: genProof f (foldPairs f (x :: y :: rest)) (i / 2)
termination_by l _ => l.length
decreasing_by simp [foldPairs_length]; omega

/-- Modelled from the spec: recompute the root from a leaf by combining with
the proof's sibling hashes in order, respecting the recorded sides.  Pure:
depends only on the leaf, the proof and `f`. -/
def foldProof {α : Type} (f : α → α → α) (x : α) : List (Bool × α) → α
  | [] => x
  | p :: rest => foldProof f (if p.1 then f x p.2 else f p.2 x) rest

theorem getD_irrel {α : Type} {l : List α} {i : Nat} (h : i < l.length) (d₁ d₂ : α) :
    l.getD i d₁ = l.getD i d₂ := by
  rw [List.getD_eq_getElem l d₁ h, List.getD_eq_getElem l d₂ h]

/-- The element of a folded level at index `i / 2` combines the level's
elements at `i` and its sibling (duplicating on the odd tail). -/
theorem foldPairs_getD {α : Type} (f : α → α → α) (d : α) :
    ∀ (l : List α) (i : Nat), i < l.length →
    (foldPairs f l).getD (i / 2) d =
      if i % 2 = 0 then
        (if i + 1 < l.length then f (l.getD i d) (l.getD (i + 1) d)
         else f (l.getD i d) (l.getD i d))
      else f (l.getD (i - 1) d) (l.getD i d)
  | [], i, h => by simp at h
  | [a], i, h => by
      have hi : i = 0 := by simpa using h
      subst hi
      simp [foldPairs]
  | a :: b :: rest, i, h => by
      match i with
      | 0 =>
        have h1 : 0 + 1 < (a :: b :: rest).length := by simp
        rw [if_pos rfl, if_pos h1]
        simp [foldPairs]
      | 1 =>
        rw [if_neg (by omega : ¬ (1 % 2 = 0))]
        simp [foldPairs]
      | (k + 2) =>
        have hk : k < rest.length := by
          simp only [List.length_cons] at h; omega
        have ih := foldPairs_getD f d rest k hk
        have e0 : (foldPairs f (a :: b :: rest)).getD ((k + 2) / 2) d
            = (foldPairs f rest).getD (k / 2) d := by
          rw [(by omega : (k + 2) / 2 = k / 2 + 1)]
          rfl
        have e1 : (a :: b :: rest).getD (k + 2) d = rest.getD k d := rfl
        have e2 : (a :: b :: rest).getD (k + 2 + 1) d = rest.getD (k + 1) d := rfl
        rw [e0, ih, (by omega : (k + 2) % 2 = k % 2)]
        have hc : (k + 2 + 1 < (a :: b :: rest).length) ↔ (k + 1 < rest.length) := by
          simp only [List.length_cons]
          omega
        by_cases hp : k % 2 = 0
        · rw [if_pos hp, if_pos hp]
          by_cases hnext : k + 1 < rest.length
          · rw [if_pos hnext, if_pos (hc.mpr hnext), e1, e2]
          · rw [if_neg hnext, if_neg (fun hcon => hnext (hc.mp hcon)), e1]
        · obtain ⟨k', rfl⟩ : ∃ k', k = k' + 1 := ⟨k - 1, by omega⟩
          rw [if_neg hp, if_neg hp]
          have e3 : (a :: b :: rest).getD (k' + 1 + 2 - 1) d = rest.getD k' d := rfl
          have e4 : (a :: b :: rest).getD (k' + 1 + 2) d = rest.getD (k' + 1) d := rfl
          have e5 : rest.getD (k' + 1 - 1) d = rest.getD k' d := rfl
          rw [e3, e4, e5]

/-- Correctness of inclusion proofs: folding a leaf up through its generated
proof reproduces the level's root. -/
theorem foldProof_genProof {α : Type} (f : α → α → α) (d : α) :
    ∀ (l : List α) (i : Nat), i < l.length → ∀ r, buildRoot f l = some r →
    foldProof f (l.getD i d) (genProof f l i) = r
  | [], i, h, _, _ => by simp at h
  | [a], i, h, r, hr => by
      have hi : i = 0 := by simpa using h
      subst hi
      simp only [buildRoot, Option.some.injEq] at hr
      simpa [genProof, foldProof] using hr
  | x :: y :: rest, i, h, r, hr => by
      simp only [genProof, foldProof]
      simp only [buildRoot] at hr
      have hlen : i / 2 < (foldPairs f (x :: y :: rest)).length := by
        rw [foldPairs_length]
        simp only [List.length_cons] at h ⊢
        omega
      have ih := foldProof_genProof f d (foldPairs f (x :: y :: rest)) (i / 2) hlen r hr
      rw [foldPairs_getD f d (x :: y :: rest) i h] at ih
      by_cases hp : i % 2 = 0
      · rw [if_pos hp] at ih ⊢
        by_cases hnext : i + 1 < (x :: y :: rest).length
        · rw [if_pos hnext] at ih ⊢
          rw [getD_irrel hnext x d]
          simpa using ih
        · rw [if_neg hnext] at ih ⊢
          rw [getD_irrel h x d]
          simpa using ih
      · rw [if_neg hp] at ih ⊢
        rw [getD_irrel (by simp only [List.length_cons] at h ⊢ ; omega :
              i - 1 < (x :: y :: rest).length) x d]
        simpa using ih
termination_by l _ => l.length
decreasing_by simp [foldPairs_length]; omega

/-- Modelled from the spec: the node-combining hash, idealized as a free
constructor (a collision-free pairing), together with the leaf hash of an
asset id.  The spec's SHA-256 justifies treating distinct inputs as
producing distinct digests. -/
inductive MerkleHash where
  | leaf (assetId : String)
  | node (l r : MerkleHash)
deriving DecidableEq

/-- Folding through a fixed proof skeleton is injective in the starting
accumulator, because `node` is injective in each argument. -/
theorem foldProof_node_inj :
    ∀ (ps : List (Bool × MerkleHash)) (x y : MerkleHash),
      foldProof MerkleHash.node x ps = foldProof MerkleHash.node y ps → x = y
  | [], _, _, h => h
  | p :: rest, x, y, h => by
      have hacc := foldProof_node_inj rest _ _ h
      by_cases hs : p.1 = true
      · rw [hs, if_pos rfl, if_pos rfl] at hacc
        exact (MerkleHash.node.injEq _ _ _ _ ▸ hacc).1
      · rw [Bool.not_eq_true] at hs
        rw [hs] at hacc
        simp only [Bool.false_eq_true, if_false] at hacc
        exact (MerkleHash.node.injEq _ _ _ _ ▸ hacc).2

/-- Flipping the sibling hash at any single position of a proof changes the
recomputed root. -/
theorem foldProof_flip_ne :
    ∀ (ps : List (Bool × MerkleHash)) (x : MerkleHash) (j : Nat) (hj : j < ps.length)
      (h' : MerkleHash), h' ≠ (ps.get ⟨j, hj⟩).2 →
      foldProof MerkleHash.node x (ps.set j ((ps.get ⟨j, hj⟩).1, h'))
        ≠ foldProof MerkleHash.node x ps
  | [], _, j, hj, _, _ => by simp at hj
  | p :: rest, x, 0, hj, h', hne => by
      intro hcontra
      have hp0 : (p :: rest).get ⟨0, hj⟩ = p := rfl
      rw [hp0] at hne
      simp only [hp0, List.set_cons_zero, foldProof] at hcontra
      have hacc := foldProof_node_inj rest _ _ hcontra
      by_cases hs : p.1 = true
      · rw [if_pos hs, if_pos hs] at hacc
        exact hne (MerkleHash.node.injEq _ _ _ _ ▸ hacc).2
      · rw [if_neg hs, if_neg hs] at hacc
        exact hne (MerkleHash.node.injEq _ _ _ _ ▸ hacc).1
  | p :: rest, x, (j + 1), hj, h', hne => by
      have hj' : j < rest.length := by simpa using hj
      have := foldProof_flip_ne rest (if p.1 then MerkleHash.node x p.2
          else MerkleHash.node p.2 x) j hj' h' (by simpa using hne)
      intro hcontra
      exact this (by simpa [foldProof] using hcontra)

namespace MerkleTree

/-- Modelled from the spec: the leaf hashes of an ordered asset id list. -/
def leafHashes (ids : List String) : List MerkleHash :=
  ids.map MerkleHash.leaf

/-- Modelled from the spec: `build` — the Merkle root over an ordered asset
id list (`none` for the empty list). -/
def build (ids : List String) : Option MerkleHash :=
  buildRoot MerkleHash.node (leafHashes ids)

/-- Modelled from the spec: `get_proof(asset_id)` — `NotFound` (here `none`)
when the id is not part of the tree, otherwise the ordered sibling-hash
list for the id's leaf position. -/
def get_proof (ids : List String) (assetId : String) : Option (List (Bool × MerkleHash)) :=
  if assetId ∈ ids then
    some (genProof MerkleHash.node (leafHashes ids) (ids.indexOf assetId))
  else none

/-- Modelled from the spec: `verify_proof(asset_id, proof, root_hash)` —
recompute the root from the leaf hash and the sibling hashes in order and
compare; depends only on its arguments, not on the tree object. -/
def verify_proof (assetId : String) (proof : List (Bool × MerkleHash))
    (root_hash : MerkleHash) : Bool :=
  decide (foldProof MerkleHash.node (MerkleHash.leaf assetId) proof = root_hash)

end MerkleTree

/-- First match in an association list, the lookup discipline of the
modelled stores. -/
def assocFind {κ β : Type} [DecidableEq κ] (key : κ) : List (κ × β) → Option β
  | [] => none
  | e :: rest => if e.1 = key then some e.2 else assocFind key rest

theorem assocFind_mem {κ β : Type} [DecidableEq κ] (key : κ) :
    ∀ (l : List (κ × β)) (v : β), assocFind key l = some v → (key, v) ∈ l
  | [], _, h => by simp [assocFind] at h
  | e :: rest, v, h => by
      by_cases he : e.1 = key
      · obtain ⟨k, v'⟩ := e
        rw [assocFind, if_pos he] at h
        injection h with hv
        subst hv
        subst he
        exact List.mem_cons_self _ _
      · rw [assocFind, if_neg he] at h
        exact List.mem_cons_of_mem _ (assocFind_mem key rest v h)

theorem assocFind_isSome_of_mem {κ β : Type} [DecidableEq κ] (key : κ) :
    ∀ (l : List (κ × β)) (v : β), (key, v) ∈ l → (assocFind key l).isSome
  | [], _, h => by simp at h
  | e :: rest, v, h => by
      rw [assocFind]
      by_cases he : e.1 = key
      · rw [if_pos he]
        rfl
      · rw [if_neg he]
        rcases List.mem_cons.mp h with heq | hmem
        · exact absurd (by rw [← heq]) he
        · exact assocFind_isSome_of_mem key rest v hmem

theorem assocFind_none_not_mem {κ β : Type} [DecidableEq κ] (key : κ)
    (l : List (κ × β)) (hnone : assocFind key l = none) : key ∉ l.map Prod.fst := by
  intro hmem
  obtain ⟨e, hel, hfst⟩ := List.mem_map.mp hmem
  have := assocFind_isSome_of_mem key l e.2 (by rw [← hfst] ; exact hel)
  rw [hnone] at this
  exact Bool.noConfusion this

/-- Modelled from the spec: the content-addressed blob store (§4.1).  The id
type `ι` abstracts the hex-encoded content hash; `hash` is the configured
cryptographic content hash; `objects` maps each stored id to its bytes
(bytes as `List Nat`).  The AIFS server implementing this store is not part
of the reviewed repository. -/
structure ContentStore (ι : Type) where
  hash : List Nat → ι
  objects : List (ι × List Nat)

/-- The store error kinds of the spec's §4.1 contract. -/
inductive StoreErr where
  | notFound
  | integrityError
deriving DecidableEq

/-- Store invariant: every object's key is the hash of its bytes, and keys
are unique (content addressing). -/
def ContentStore.Wf {ι : Type} (s : ContentStore ι) : Prop :=
  (∀ e ∈ s.objects, s.hash e.2 = e.1) ∧ (s.objects.map Prod.fst).Nodup

/-- Modelled from the spec: `put(bytes)` — hash the bytes, check existence,
write only when absent, and return the content id in either case. -/
def ContentStore.put {ι : Type} [DecidableEq ι] (s : ContentStore ι) (b : List Nat) :
    ι × ContentStore ι :=
  let id := s.hash b
  match assocFind id s.objects with
  | some _ => (id, s)
  | none => (id, ⟨s.hash, (id, b) :: s.objects⟩)

/-- Modelled from the spec: `get(content_id)` — `NotFound` when absent, and
re-verify the retrieved bytes against the id, failing with `IntegrityError`
on mismatch. -/
def ContentStore.get {ι : Type} [DecidableEq ι] (s : ContentStore ι) (id : ι) :
    Except StoreErr (List Nat) :=
  match assocFind id s.objects with
  | none => .error .notFound
  | some b => if s.hash b = id then .ok b else .error .integrityError

/-- Modelled from the spec: `exists(content_id)` — cheap existence check. -/
def ContentStore.existsObj {ι : Type} [DecidableEq ι] (s : ContentStore ι) (id : ι) :
    Bool :=
  (assocFind id s.objects).isSome

theorem ContentStore.put_Wf {ι : Type} [DecidableEq ι] (s : ContentStore ι)
    (b : List Nat) (hwf : s.Wf) : ((s.put b).2).Wf := by
  rw [ContentStore.put]
  rcases hfind : assocFind (s.hash b) s.objects with _ | b₀
  · refine ⟨?_, ?_⟩
    · intro e he
      rcases List.mem_cons.mp he with rfl | hmem
      · rfl
      · exact hwf.1 e hmem
    · simp only [List.map_cons]
      exact List.nodup_cons.mpr ⟨assocFind_none_not_mem _ _ hfind, hwf.2⟩
  · exact hwf

/-- At most one stored object can hold a given byte payload: its key is
forced to be the payload's hash, and keys are unique. -/
theorem countP_value_le_one {ι : Type} (hash : List Nat → ι) (b : List Nat) :
    ∀ objects : List (ι × List Nat),
      (∀ e ∈ objects, hash e.2 = e.1) → (objects.map Prod.fst).Nodup →
      objects.countP (fun e => decide (e.2 = b)) ≤ 1
  | [], _, _ => by simp
  | e :: rest, hkeys, hnodup => by
      have hrest : rest.countP (fun x => decide (x.2 = b)) ≤ 1 :=
        countP_value_le_one hash b rest (fun x hx => hkeys x (List.mem_cons_of_mem _ hx))
          (List.nodup_cons.mp (by simpa using hnodup)).2
      by_cases heb : e.2 = b
      · have hzero : rest.countP (fun x => decide (x.2 = b)) = 0 := by
          rw [List.countP_eq_zero]
          intro x hx
          simp only [decide_eq_true_eq]
          intro hxb
          have h1 : hash x.2 = x.1 := hkeys x (List.mem_cons_of_mem _ hx)
          have h2 : hash e.2 = e.1 := hkeys e (List.mem_cons_self _ _)
          have hx1 : x.1 = e.1 := by rw [← h1, ← h2, hxb, heb]
          have hhead : e.1 ∉ rest.map Prod.fst :=
            (List.nodup_cons.mp (by simpa using hnodup)).1
          exact hhead (List.mem_map.mpr ⟨x, hx, hx1⟩)
        rw [List.countP_cons_of_pos _ _ (by simpa using heb), hzero]
      · rw [List.countP_cons_of_neg _ _ (by simpa using heb)]
        exact hrest

/-- Modelled from the spec: the vector index error kind for a query or
insertion of the wrong embedding dimension. -/
inductive VecErr where
  | dimensionMismatch
deriving DecidableEq

/-- Modelled from the spec: the vector index (§4.3) — a configured
dimension and one embedding per asset id.  Embeddings are rationals
(the float vectors of the deployment, modelled exactly). -/
structure VectorDB where
  dim : Nat
  entries : List (String × List ℚ)

/-- Modelled from the spec: the similarity score of a query against a
stored embedding (inner product; the ranking properties proved below do
not depend on the particular score). -/
def similarity (q e : List ℚ) : ℚ :=
  (List.zipWith (fun a b => a * b) q e).sum

/-- Ranking relation: higher similarity first. -/
def rankGE (a b : String × ℚ) : Prop := b.2 ≤ a.2

instance : DecidableRel rankGE := fun a b => inferInstanceAs (Decidable (b.2 ≤ a.2))

instance : IsTotal (String × ℚ) rankGE := ⟨fun a b => le_total b.2 a.2⟩

instance : IsTrans (String × ℚ) rankGE := ⟨fun _ _ _ hab hbc => le_trans hbc hab⟩

/-- Modelled from the spec: `search(query_embedding, k)` — fail with
`DimensionMismatch` on a bad query shape, otherwise score every entry,
rank by similarity (highest first) and return the top `k`. -/
def VectorDB.search (db : VectorDB) (query_embedding : List ℚ) (k : Nat) :
    Except VecErr (List (String × ℚ)) :=
  if query_embedding.length = db.dim then
    .ok ((List.insertionSort rankGE
      (db.entries.map fun e => (e.1, similarity query_embedding e.2))).take k)
  else .error .dimensionMismatch

/-- Modelled from the spec: `add(asset_id, embedding)` — insert or replace
the vector for the id; `DimensionMismatch` when the embedding's length
differs from the configured dimension. -/
def VectorDB.add (db : VectorDB) (asset_id : String) (embedding : List ℚ) :
    Except VecErr VectorDB :=
  if embedding.length = db.dim then
    .ok ⟨db.dim, (asset_id, embedding) :: db.entries.filter fun e => decide (e.1 ≠ asset_id)⟩
  else .error .dimensionMismatch

/-- Modelled from the spec: snapshot-creation failure reporting the full
set of missing ids. -/
inductive SnapErr where
  | assetNotFound (missing : List String)
deriving DecidableEq

/-- Modelled from the spec: a snapshot record (§3) — namespace, ordered
asset id set, Merkle root, creation timestamp. -/
structure Snapshot where
  namespc : String
  asset_ids : List String
  merkle_root : Option MerkleHash
  created_at : Nat
deriving DecidableEq

/-- Modelled from the spec: the Asset Manager state visible to
`create_snapshot` — the set of existing asset ids and the persisted
snapshot records. -/
structure ManagerState where
  assets : List String
  snapshots : List Snapshot
deriving DecidableEq

/-- Modelled from the spec: `create_snapshot` (§4.5) — validate that every
id exists; on any missing id fail with `AssetNotFound` listing the full
missing set and persist nothing; otherwise build the Merkle tree and
persist the snapshot record. -/
def create_snapshot (st : ManagerState) (namespc : String) (asset_ids : List String)
    (ts : Nat) : ManagerState × Except SnapErr Snapshot :=
  let missing := asset_ids.filter fun a => !(decide (a ∈ st.assets))
  if missing.isEmpty then
    let snap : Snapshot := ⟨namespc, asset_ids, MerkleTree.build asset_ids, ts⟩
    ({ st with snapshots := snap :: st.snapshots }, .ok snap)
  else (st, .error (.assetNotFound missing))

end AifsCore

open AifsClient AifsCore

/-! ## Claim theorems -/

/-- C1 (counterexample): the asset grid view holds a non-empty local mock
asset list of its own, and the result set it displays for the query
`"chart"` is computed from that local list — not obtained from the remote
server. -/
theorem asset_views_hold_local_mock_data :
    AssetGrid.mockAssets ≠ [] ∧
    AssetGrid.mockAssets.length = 6 ∧
    AssetGrid.filteredAssets "chart" =
      [⟨"5", "chart.png", "file", "image/png", 1500000, "2024-01-11T16:30:00Z",
        ["image", "chart", "visualization"]⟩] ∧
    (AssetGrid.filteredAssets "chart").all
      (fun a => decide (a ∈ AssetGrid.mockAssets)) = true := by
  refine ⟨by decide, rfl, by decide, by decide⟩

/-- C1 (amended): every asset either view displays comes from its own fixed
six-element local mock list; the views obtain nothing from the remote
server and the client does hold asset data of its own. -/
theorem asset_views_display_only_local_assets (q : String) :
    (∀ a ∈ AssetGrid.filteredAssets q, a ∈ AssetGrid.mockAssets) ∧
    (∀ a ∈ AssetList.filteredAssets q, a ∈ AssetList.mockAssets) ∧
    AssetGrid.mockAssets.length = 6 ∧ AssetList.mockAssets.length = 6 :=
  ⟨fun _ ha => List.mem_of_mem_filter ha, fun _ ha => List.mem_of_mem_filter ha, rfl, rfl⟩

/-- C2 (counterexample): the chat and upload bridge routes collapse
distinct failure kinds — a backend 404 (not found) and a backend 503
(unavailable) — into one identical catch-all error value and status 500,
so a caller cannot distinguish what went wrong. -/
theorem chat_route_collapses_error_kinds :
    chatPOST (some ⟨none, none⟩) (.success 404 .null)
      = chatPOST (some ⟨none, none⟩) (.success 503 .null) ∧
    chatPOST (some ⟨none, none⟩) (.success 404 .null) = ⟨500, chatErrorBody⟩ ∧
    uploadPOST true (.success 404 .null) = uploadPOST true (.success 503 .null) ∧
    uploadPOST true (.success 404 .null) = ⟨500, uploadErrorBody⟩ :=
  ⟨rfl, rfl, rfl, rfl⟩

/-- C2 (amended): every failing request through the API-bridge routes gets
one generic catch-all response — status 500 with a fixed error body per
route (`Failed to process chat message`, `Failed to upload file`) —
regardless of the failure kind. -/
theorem api_bridge_returns_generic_error (b : ChatBody) (st : Nat) (d : JValue)
    (hfail : ¬ (200 ≤ st ∧ st < 300)) :
    chatPOST none (.success st d) = ⟨500, chatErrorBody⟩ ∧
    chatPOST (some b) .networkError = ⟨500, chatErrorBody⟩ ∧
    chatPOST (some b) (.success st d) = ⟨500, chatErrorBody⟩ ∧
    uploadPOST false (.success st d) = ⟨500, uploadErrorBody⟩ ∧
    uploadPOST true .networkError = ⟨500, uploadErrorBody⟩ ∧
    uploadPOST true (.success st d) = ⟨500, uploadErrorBody⟩ := by
  refine ⟨rfl, rfl, ?_, rfl, rfl, ?_⟩ <;>
    simp [chatPOST, uploadPOST, if_neg hfail]

/-- C2 (witness for the amended claim) at the concrete failing status 404. -/
theorem api_bridge_generic_error_witness :
    ¬ (200 ≤ 404 ∧ 404 < 300) ∧
    (chatPOST none (.success 404 .null) = ⟨500, chatErrorBody⟩ ∧
     chatPOST (some ⟨none, none⟩) .networkError = ⟨500, chatErrorBody⟩ ∧
     chatPOST (some ⟨none, none⟩) (.success 404 .null) = ⟨500, chatErrorBody⟩ ∧
     uploadPOST false (.success 404 .null) = ⟨500, uploadErrorBody⟩ ∧
     uploadPOST true .networkError = ⟨500, uploadErrorBody⟩ ∧
     uploadPOST true (.success 404 .null) = ⟨500, uploadErrorBody⟩) :=
  ⟨by decide, api_bridge_returns_generic_error ⟨none, none⟩ 404 .null (by decide)⟩

/-- C8: for every query, the grid and list views compute the same filtered
set; that set is exactly the local mock assets whose lowercased name
contains the lowercased query or that have a tag whose lowercased form
contains it; the empty query displays all six mock assets. -/
theorem asset_views_filter_spec (q : String) :
    AssetGrid.filteredAssets q = AssetList.filteredAssets q ∧
    AssetGrid.filteredAssets q = AssetGrid.mockAssets.filter (displaySpec q) ∧
    AssetGrid.filteredAssets "" = AssetGrid.mockAssets ∧
    AssetGrid.mockAssets.length = 6 :=
  ⟨rfl, rfl, by decide, rfl⟩

/-- C9: the chat route always forwards role `user`, the body's `message`
as content, and `context_assets` equal to the body's value when truthy and
JSON `null` otherwise — in particular always a defined JSON value, never
`undefined`. -/
theorem chat_message_format (body : ChatBody) :
    (chatMessageData body).role = "user" ∧
    (chatMessageData body).content = body.message ∧
    (chatMessageData body).context_assets = some (contextAssetsSpec body) := by
  refine ⟨rfl, rfl, ?_⟩
  rcases body with ⟨msg, ctx⟩
  rcases ctx with _ | v
  · rfl
  · by_cases hv : jsTruthy v = true
    · simp [chatMessageData, jsOr, jsTruthyOpt, contextAssetsSpec, hv]
    · simp [chatMessageData, jsOr, jsTruthyOpt, contextAssetsSpec, hv]

/-- C10: the upload modal's dropzone accepts a file exactly when its MIME
type is in the fixed whitelist and its size is at most `100 * 1024 * 1024`
bytes; a rejected file is never among the accepted files handed to
`onDrop`, and upload requests are issued only for accepted files. -/
theorem upload_modal_accept_rule (f : DroppedFile) (fs : List DroppedFile) :
    (dropzoneAccepts f = true ↔ (f.mime ∈ claimWhitelist ∧ f.size ≤ 100 * 1024 * 1024)) ∧
    (dropzoneAccepts f = false → f ∉ dropzoneAcceptedFiles fs) ∧
    uploadRequestsFor fs = (fs.filter dropzoneAccepts).map DroppedFile.name := by
  refine ⟨?_, ?_, rfl⟩
  · simp [dropzoneAccepts, uploadMaxSize,
      show claimWhitelist = uploadAcceptTypes from rfl]
  · intro hrej hmem
    have hacc := List.of_mem_filter hmem
    rw [hrej] at hacc
    exact Bool.noConfusion hacc

/-- Characterization of `put` when the content id is already stored. -/
theorem ContentStore.put_found {ι : Type} [DecidableEq ι] (s : ContentStore ι)
    (b b₀ : List Nat) (hfind : assocFind (s.hash b) s.objects = some b₀) :
    s.put b = (s.hash b, s) := by
  simp only [ContentStore.put, hfind]

/-- Characterization of `put` when the content id is absent. -/
theorem ContentStore.put_absent {ι : Type} [DecidableEq ι] (s : ContentStore ι)
    (b : List Nat) (hfind : assocFind (s.hash b) s.objects = none) :
    s.put b = (s.hash b, ⟨s.hash, (s.hash b, b) :: s.objects⟩) := by
  simp only [ContentStore.put, hfind]

/-- The hash function is unchanged by `put`. -/
theorem ContentStore.put_hash {ι : Type} [DecidableEq ι] (s : ContentStore ι)
    (b : List Nat) : ((s.put b).2).hash = s.hash := by
  rcases hfind : assocFind (s.hash b) s.objects with _ | b₀
  · rw [ContentStore.put_absent s b hfind]
  · rw [ContentStore.put_found s b b₀ hfind]

/-- After `put b`, the store holds `b` under its content hash (assuming the
store invariant and a collision-free hash). -/
theorem ContentStore.put_mem {ι : Type} [DecidableEq ι] (s : ContentStore ι)
    (b : List Nat) (hinj : Function.Injective s.hash) (hwf : s.Wf) :
    (s.hash b, b) ∈ ((s.put b).2).objects := by
  rcases hfind : assocFind (s.hash b) s.objects with _ | b₀
  · rw [ContentStore.put_absent s b hfind]
    exact List.mem_cons_self _ _
  · rw [ContentStore.put_found s b b₀ hfind]
    have hmem := assocFind_mem _ _ _ hfind
    have hkey : s.hash b₀ = s.hash b := hwf.1 _ hmem
    have hb : b₀ = b := hinj hkey
    subst hb
    exact hmem

/-- C3: content-store round-trip — retrieving the content id produced by
storing `b` returns exactly `b`, for any well-formed store and
collision-free content hash. -/
theorem content_store_roundtrip {ι : Type} [DecidableEq ι] (s : ContentStore ι)
    (b : List Nat) (hinj : Function.Injective s.hash) (hwf : s.Wf) :
    ((s.put b).2).get ((s.put b).1) = .ok b := by
  have hput1 : (s.put b).1 = s.hash b := by
    rcases hfind : assocFind (s.hash b) s.objects with _ | b₀
    · rw [ContentStore.put_absent s b hfind]
    · rw [ContentStore.put_found s b b₀ hfind]
  rw [hput1]
  rcases hfind2 : assocFind (s.hash b) ((s.put b).2).objects with _ | b₁
  · have := assocFind_isSome_of_mem _ _ _ (ContentStore.put_mem s b hinj hwf)
    rw [hfind2] at this
    exact Bool.noConfusion this
  · have hwf2 : ((s.put b).2).Wf := ContentStore.put_Wf s b hwf
    have hmem := assocFind_mem _ _ _ hfind2
    have hkey : ((s.put b).2).hash b₁ = s.hash b := hwf2.1 _ hmem
    rw [ContentStore.put_hash] at hkey
    have hb : b₁ = b := hinj hkey
    simp [ContentStore.get, hfind2, ContentStore.put_hash, hb]

/-- C3 (witness): the round-trip evaluated on the empty store with the
identity content hash and the payload `[7, 7, 7]`. -/
theorem content_store_roundtrip_witness :
    Function.Injective (fun b : List Nat => b) ∧
    ContentStore.Wf ⟨fun b : List Nat => b, []⟩ ∧
    ((ContentStore.put ⟨fun b : List Nat => b, []⟩ [7, 7, 7]).2).get
      ((ContentStore.put ⟨fun b : List Nat => b, []⟩ [7, 7, 7]).1) = .ok [7, 7, 7] :=
  ⟨fun _ _ h => h, ⟨fun _ he => absurd he (List.not_mem_nil _), List.nodup_nil⟩,
    content_store_roundtrip ⟨fun b : List Nat => b, []⟩ [7, 7, 7] (fun _ _ h => h)
      ⟨fun _ he => absurd he (List.not_mem_nil _), List.nodup_nil⟩⟩

/-- C4: deduplication and idempotence of `put` — a second `put` of the same
bytes returns the same content id, leaves the store unchanged (a no-op
beyond the existence check), and the store holds exactly one physical copy
of the bytes. -/
theorem content_store_put_dedup {ι : Type} [DecidableEq ι] (s : ContentStore ι)
    (b : List Nat) (hinj : Function.Injective s.hash) (hwf : s.Wf) :
    (((s.put b).2).put b).1 = (s.put b).1 ∧
    (((s.put b).2).put b).2 = (s.put b).2 ∧
    ((s.put b).2).objects.countP (fun e => decide (e.2 = b)) = 1 := by
  have hput1 : (s.put b).1 = s.hash b := by
    rcases hfind : assocFind (s.hash b) s.objects with _ | b₀
    · rw [ContentStore.put_absent s b hfind]
    · rw [ContentStore.put_found s b b₀ hfind]
  have hwf2 : ((s.put b).2).Wf := ContentStore.put_Wf s b hwf
  have hmem : (s.hash b, b) ∈ ((s.put b).2).objects := ContentStore.put_mem s b hinj hwf
  have hfind2 : ∃ b₁, assocFind (((s.put b).2).hash b) ((s.put b).2).objects = some b₁ := by
    rw [ContentStore.put_hash]
    rcases hsome : assocFind (s.hash b) ((s.put b).2).objects with _ | b₁
    · have := assocFind_isSome_of_mem _ _ _ hmem
      rw [hsome] at this
      exact Bool.noConfusion this
    · exact ⟨b₁, rfl⟩
  obtain ⟨b₁, hb₁⟩ := hfind2
  have hsecond := ContentStore.put_found ((s.put b).2) b b₁ hb₁
  refine ⟨?_, ?_, ?_⟩
  · rw [hsecond, hput1, ContentStore.put_hash]
  · rw [hsecond]
  · have hle : ((s.put b).2).objects.countP (fun e => decide (e.2 = b)) ≤ 1 :=
      countP_value_le_one ((s.put b).2).hash b ((s.put b).2).objects hwf2.1 hwf2.2
    have hpos : 0 < ((s.put b).2).objects.countP (fun e => decide (e.2 = b)) :=
      List.countP_pos_iff.mpr ⟨(s.hash b, b), hmem, by simp⟩
    omega

/-- C4 (witness): deduplication evaluated on the empty store with the
identity content hash and the payload `[1, 2]`. -/
theorem content_store_put_dedup_witness :
    Function.Injective (fun b : List Nat => b) ∧
    ContentStore.Wf ⟨fun b : List Nat => b, []⟩ ∧
    ((((ContentStore.put ⟨fun b : List Nat => b, []⟩ [1, 2]).2).put [1, 2]).1 =
        (ContentStore.put ⟨fun b : List Nat => b, []⟩ [1, 2]).1 ∧
      ((((ContentStore.put ⟨fun b : List Nat => b, []⟩ [1, 2]).2).put [1, 2]).2 =
        (ContentStore.put ⟨fun b : List Nat => b, []⟩ [1, 2]).2) ∧
      ((ContentStore.put ⟨fun b : List Nat => b, []⟩ [1, 2]).2).objects.countP
        (fun e => decide (e.2 = [1, 2])) = 1) :=
  ⟨fun _ _ h => h, ⟨fun _ he => absurd he (List.not_mem_nil _), List.nodup_nil⟩,
    content_store_put_dedup ⟨fun b : List Nat => b, []⟩ [1, 2] (fun _ _ h => h)
      ⟨fun _ he => absurd he (List.not_mem_nil _), List.nodup_nil⟩⟩

/-- C5: for a query of the configured dimension, `search` never errors: it
returns at most `k` results, exactly `min k n` of the `n` indexed entries
(so all of them when the index holds fewer than `k`), ranked by descending
similarity, with no duplicate asset ids (given the index invariant of one
entry per asset id). -/
theorem vector_search_ranked (db : VectorDB) (q : List ℚ) (k : Nat)
    (hq : q.length = db.dim) (hids : (db.entries.map Prod.fst).Nodup) :
    ∃ res, db.search q k = .ok res ∧
      res.length = min k db.entries.length ∧
      res.length ≤ k ∧
      (db.entries.length < k → res.length = db.entries.length) ∧
      List.Pairwise (fun a b => b.2 ≤ a.2) res ∧
      (res.map Prod.fst).Nodup := by
  refine ⟨(List.insertionSort rankGE
      (db.entries.map fun e => (e.1, similarity q e.2))).take k, ?_, ?_, ?_, ?_, ?_, ?_⟩
  · rw [VectorDB.search, if_pos hq]
  · rw [List.length_take,
      (List.perm_insertionSort rankGE (db.entries.map fun e => (e.1, similarity q e.2))).length_eq,
      List.length_map]
  · rw [List.length_take]
    exact min_le_left _ _
  · intro hlt
    rw [List.length_take,
      (List.perm_insertionSort rankGE (db.entries.map fun e => (e.1, similarity q e.2))).length_eq,
      List.length_map]
    omega
  · have hs := List.sorted_insertionSort rankGE
      (db.entries.map fun e => (e.1, similarity q e.2))
    exact List.Pairwise.sublist (List.take_sublist _ _) hs
  · have hperm : List.Perm
        ((List.insertionSort rankGE
          (db.entries.map fun e => (e.1, similarity q e.2))).map Prod.fst)
        ((db.entries.map fun e => (e.1, similarity q e.2)).map Prod.fst) :=
      List.Perm.map Prod.fst
        (List.perm_insertionSort rankGE (db.entries.map fun e => (e.1, similarity q e.2)))
    have hfst : (db.entries.map fun e => (e.1, similarity q e.2)).map Prod.fst
        = db.entries.map Prod.fst := by
      rw [List.map_map]
      rfl
    have hsorted : ((List.insertionSort rankGE
        (db.entries.map fun e => (e.1, similarity q e.2))).map Prod.fst).Nodup :=
      (hperm.nodup_iff).mpr (hfst ▸ hids)
    rw [List.map_take]
    exact List.Nodup.sublist (List.take_sublist _ _) hsorted

/-- C5 (witness): the search evaluated on a concrete two-entry index of
dimension 2 with `k = 5`. -/
theorem vector_search_ranked_witness :
    ([1, 0] : List ℚ).length = (VectorDB.mk 2 [("a", [1, 0]), ("b", [0, 1])]).dim ∧
    (((VectorDB.mk 2 [("a", [1, 0]), ("b", [0, 1])]).entries.map Prod.fst).Nodup) ∧
    (∃ res, (VectorDB.mk 2 [("a", [1, 0]), ("b", [0, 1])]).search [1, 0] 5 = .ok res ∧
      res.length = min 5 (VectorDB.mk 2 [("a", [1, 0]), ("b", [0, 1])]).entries.length ∧
      res.length ≤ 5 ∧
      ((VectorDB.mk 2 [("a", [1, 0]), ("b", [0, 1])]).entries.length < 5 →
        res.length = (VectorDB.mk 2 [("a", [1, 0]), ("b", [0, 1])]).entries.length) ∧
      List.Pairwise (fun a b => b.2 ≤ a.2) res ∧
      (res.map Prod.fst).Nodup) :=
  ⟨rfl, by decide,
    vector_search_ranked (VectorDB.mk 2 [("a", [1, 0]), ("b", [0, 1])]) [1, 0] 5 rfl
      (by decide)⟩

/-- C7: a snapshot request with at least one missing asset id fails with
`AssetNotFound` whose payload is exactly the set of missing ids (all of
them), and the manager state — in particular the persisted snapshot list —
is unchanged. -/
theorem create_snapshot_missing_ids (st : ManagerState) (ns : String)
    (ids : List String) (ts : Nat) (a : String) (ha : a ∈ ids) (hnot : a ∉ st.assets) :
    (create_snapshot st ns ids ts).1 = st ∧
    (create_snapshot st ns ids ts).2 =
      .error (.assetNotFound (ids.filter fun x => !(decide (x ∈ st.assets)))) ∧
    (∀ x, x ∈ ids.filter (fun x => !(decide (x ∈ st.assets))) ↔ (x ∈ ids ∧ x ∉ st.assets)) := by
  have hmemf : a ∈ ids.filter (fun x => !(decide (x ∈ st.assets))) :=
    List.mem_filter.mpr ⟨ha, by simp [hnot]⟩
  have hne : ¬ ((ids.filter fun x => !(decide (x ∈ st.assets))).isEmpty = true) := by
    intro hcon
    rw [List.isEmpty_iff] at hcon
    rw [hcon] at hmemf
    exact List.not_mem_nil a hmemf
  refine ⟨?_, ?_, fun x => by simp [List.mem_filter]⟩
  · simp only [create_snapshot, if_neg hne]
  · simp only [create_snapshot, if_neg hne]

/-- C7 (witness): `create_snapshot` over `[a1, a2, a3]` when only `a1` and
`a3` exist — it fails listing exactly `a2` and persists nothing. -/
theorem create_snapshot_missing_ids_witness :
    "a2" ∈ ["a1", "a2", "a3"] ∧ "a2" ∉ (ManagerState.mk ["a1", "a3"] []).assets ∧
    ((create_snapshot ⟨["a1", "a3"], []⟩ "ns1" ["a1", "a2", "a3"] 0).1 = ⟨["a1", "a3"], []⟩ ∧
      (create_snapshot ⟨["a1", "a3"], []⟩ "ns1" ["a1", "a2", "a3"] 0).2 =
        .error (.assetNotFound (["a1", "a2", "a3"].filter
          fun x => !(decide (x ∈ (ManagerState.mk ["a1", "a3"] []).assets)))) ∧
      (∀ x, x ∈ ["a1", "a2", "a3"].filter
          (fun x => !(decide (x ∈ (ManagerState.mk ["a1", "a3"] []).assets))) ↔
        (x ∈ ["a1", "a2", "a3"] ∧ x ∉ (ManagerState.mk ["a1", "a3"] []).assets))) :=
  ⟨by decide, by decide,
    create_snapshot_missing_ids ⟨["a1", "a3"], []⟩ "ns1" ["a1", "a2", "a3"] 0 "a2"
      (by decide) (by decide)⟩

/-- The leaf-hash level of an id list, read at an in-range index. -/
theorem leafHashes_getD :
    ∀ (ids : List String) (i : Nat) (d : MerkleHash), i < ids.length →
      (MerkleTree.leafHashes ids).getD i d = MerkleHash.leaf (ids.getD i "")
  | [], i, _, h => by simp at h
  | _ :: _, 0, _, _ => rfl
  | _ :: rest, (i + 1), d, h => leafHashes_getD rest i d (by simpa using h)

/-- C6: for any id in the tree, verifying the generated inclusion proof
against the built root succeeds, and flipping any single sibling hash of
that proof (keeping its side) makes verification fail. -/
theorem merkle_proof_roundtrip_and_flip (ids : List String) (assetId : String)
    (hmem : assetId ∈ ids) (root : MerkleHash)
    (hroot : MerkleTree.build ids = some root) :
    ∃ pf, MerkleTree.get_proof ids assetId = some pf ∧
      MerkleTree.verify_proof assetId pf root = true ∧
      ∀ (j : Nat) (hj : j < pf.length) (h' : MerkleHash),
        h' ≠ (pf.get ⟨j, hj⟩).2 →
        MerkleTree.verify_proof assetId (pf.set j ((pf.get ⟨j, hj⟩).1, h')) root = false := by
  have hidx : ids.indexOf assetId < ids.length := List.indexOf_lt_length.mpr hmem
  have hidx2 : ids.indexOf assetId < (MerkleTree.leafHashes ids).length := by
    rw [MerkleTree.leafHashes, List.length_map]
    exact hidx
  have hids_get : ids.getD (ids.indexOf assetId) "" = assetId := by
    rw [List.getD_eq_getElem _ _ hidx]
    exact List.getElem_indexOf hidx
  have hleaf : (MerkleTree.leafHashes ids).getD (ids.indexOf assetId)
      (MerkleHash.leaf assetId) = MerkleHash.leaf assetId := by
    rw [leafHashes_getD ids _ _ hidx, hids_get]
  have hfold : foldProof MerkleHash.node (MerkleHash.leaf assetId)
      (genProof MerkleHash.node (MerkleTree.leafHashes ids) (ids.indexOf assetId)) = root := by
    have hmain := foldProof_genProof MerkleHash.node (MerkleHash.leaf assetId)
      (MerkleTree.leafHashes ids) (ids.indexOf assetId) hidx2 root hroot
    rw [hleaf] at hmain
    exact hmain
  refine ⟨genProof MerkleHash.node (MerkleTree.leafHashes ids) (ids.indexOf assetId),
    ?_, ?_, ?_⟩
  · rw [MerkleTree.get_proof, if_pos hmem]
  · rw [MerkleTree.verify_proof]
    exact decide_eq_true hfold
  · intro j hj h' hne
    have hflip := foldProof_flip_ne _ (MerkleHash.leaf assetId) j hj h' hne
    rw [hfold] at hflip
    rw [MerkleTree.verify_proof]
    exact decide_eq_false hflip

/-- C6 (witness): the proof round-trip and flip sensitivity evaluated on
the concrete tree over `[a1, a2, a3]` at the leaf `a2`. -/
theorem merkle_proof_roundtrip_and_flip_witness :
    "a2" ∈ ["a1", "a2", "a3"] ∧
    MerkleTree.build ["a1", "a2", "a3"] =
      some (MerkleHash.node
        (MerkleHash.node (MerkleHash.leaf "a1") (MerkleHash.leaf "a2"))
        (MerkleHash.node (MerkleHash.leaf "a3") (MerkleHash.leaf "a3"))) ∧
    (∃ pf, MerkleTree.get_proof ["a1", "a2", "a3"] "a2" = some pf ∧
      MerkleTree.verify_proof "a2" pf
        (MerkleHash.node
          (MerkleHash.node (MerkleHash.leaf "a1") (MerkleHash.leaf "a2"))
          (MerkleHash.node (MerkleHash.leaf "a3") (MerkleHash.leaf "a3"))) = true ∧
      ∀ (j : Nat) (hj : j < pf.length) (h' : MerkleHash),
        h' ≠ (pf.get ⟨j, hj⟩).2 →
        MerkleTree.verify_proof "a2" (pf.set j ((pf.get ⟨j, hj⟩).1, h'))
          (MerkleHash.node
            (MerkleHash.node (MerkleHash.leaf "a1") (MerkleHash.leaf "a2"))
            (MerkleHash.node (MerkleHash.leaf "a3") (MerkleHash.leaf "a3"))) = false) :=
  ⟨by decide,
    by simp [MerkleTree.build, MerkleTree.leafHashes, buildRoot, foldPairs],
    merkle_proof_roundtrip_and_flip ["a1", "a2", "a3"] "a2" (by decide)
      (MerkleHash.node
        (MerkleHash.node (MerkleHash.leaf "a1") (MerkleHash.leaf "a2"))
        (MerkleHash.node (MerkleHash.leaf "a3") (MerkleHash.leaf "a3")))
      (by simp [MerkleTree.build, MerkleTree.leafHashes, buildRoot, foldPairs])⟩
